import Mathlib

/-!
Verification of the access-control core of `src/app.py` (Wiegand decoder,
credential queue, schedule evaluation, door relay, opening-time
configuration).  Each Python function in scope is shallowly embedded as an
executable Lean definition; machine integers are `Nat`/`Int` (Python ints are
unbounded, so no wrap-around is modelled); fallible paths return `Option`.
-/

/-! ## Protocol constants (src/app.py lines 90-91, 110) -/

/-- `WIEGAND_EXPECTED_BITS = 26` (src/app.py line 91). -/
def WIEGAND_EXPECTED_BITS : Nat := 26

/-- `DEFAULT_OPENING_TIME_SECONDS = 5` (src/app.py line 110). -/
def DEFAULT_OPENING_TIME_SECONDS : Int := 5

/-! ## List slicing and bit-string conversion

Python slices `bits[i:j]` and the conversion `int("".join(map(str, bits)), 2)`
used by `_wiegand_process_data`.  Wiegand frames only ever hold the elements
`0` and `1` (`_wiegand_pulse_callback`, src/app.py lines 520-528, appends
nothing else), and the conversion is modelled on that domain: an empty slice
or an element other than `0`/`1` makes `int(..., 2)` raise `ValueError`,
modelled as `none`. -/

/-- Python `bits[i:j]` for a list. -/
def listSlice (bits : List Nat) (i j : Nat) : List Nat :=
  (bits.drop i).take (j - i)

/-- `int("".join(map(str, bits)), 2)` on a list of 0/1 bits: `none` models the
`ValueError` raised on an empty string or a non-binary digit. -/
def pyIntBase2? (bits : List Nat) : Option Nat :=
  if bits.isEmpty then none
  else if bits.all (fun b => b ≤ 1) then
    some (bits.foldl (fun acc b => 2 * acc + b) 0)
  else none

/-- Specification-side reading of a bit string as a big-endian unsigned
number: the head bit is the most significant. -/
def beValue : List Nat → Nat
  | [] => 0
  | b :: bs => b * 2 ^ bs.length + beValue bs

/-! ## The Wiegand decoder (src/app.py lines 530-549) -/

/-- Even-parity check of `_wiegand_process_data` (src/app.py line 537):
`(sum(bits[1:13]) % 2) == bits[0]`. -/
def wiegandParityEvenOk (bits : List Nat) : Bool :=
  (listSlice bits 1 13).sum % 2 == bits.getD 0 0

/-- Odd-parity check of `_wiegand_process_data` (src/app.py line 538):
`(sum(bits[13:25]) % 2) != bits[25]`. -/
def wiegandParityOddOk (bits : List Nat) : Bool :=
  (listSlice bits 13 25).sum % 2 != bits.getD 25 0

/-- `_wiegand_process_data(bits)` (src/app.py lines 530-549).  Rejects a frame
whose length differs from `WIEGAND_EXPECTED_BITS`; otherwise extracts
`fc = int(bits[1:9], 2)`, `cn = int(bits[9:25], 2)` and returns
`(fc << 16) | cn`.  The parity checks of lines 536-541 (`wiegandParityEvenOk`,
`wiegandParityOddOk`) are computed there only to log warnings: they do not
influence the returned value, so they do not appear in the result. -/
def _wiegand_process_data (bits : List Nat) : Option Nat :=
  if bits.length ≠ WIEGAND_EXPECTED_BITS then none
  else
    match pyIntBase2? (listSlice bits 1 9), pyIntBase2? (listSlice bits 9 25) with
    | some fc, some cn => some ((fc <<< 16) ||| cn)
    | _, _ => none

/-- A copy of a frame whose two parity positions (index 0 and index 25) are
replaced by the values that satisfy both parity checks; the payload
`bits[1:25]` is kept.  Used to compare a frame against "the same frame with
parity passing". -/
def wiegandWithCorrectParity (bits : List Nat) : List Nat :=
  (listSlice bits 1 13).sum % 2 ::
    (listSlice bits 1 25 ++ [1 - (listSlice bits 13 25).sum % 2])

/-- Big-endian bits of `n`, `width` digits wide (the inverse of the
extraction rule; the low bit is last). -/
def natToBits : Nat → Nat → List Nat
  | 0, _ => []
  | width + 1, n => natToBits width (n / 2) ++ [n % 2]

/-- Encoding of a `(facility, card)` pair into a 26-bit frame via the inverse
of the extraction rule: facility as bits 1..8 big-endian, card as bits 9..24
big-endian, arbitrary parity bits at positions 0 and 25. -/
def wiegandEncode (facility card p0 p25 : Nat) : List Nat :=
  p0 :: (natToBits 8 facility ++ natToBits 16 card ++ [p25])

/-! ## The credential queue (src/app.py lines 98, 591-598)

Python's `queue.Queue(maxsize)`: `maxsize <= 0` means an infinite queue
(`full()` is then always `False`); `put(item, block=False)` raises
`queue.Full` exactly when the queue is full, leaving it unchanged, and
appends otherwise; `get_nowait()` removes and returns the oldest item or
raises `queue.Empty`. -/

structure PyQueue where
  maxsize : Int
  items : List String
deriving DecidableEq

/-- `Queue.full()`: `False` when `maxsize <= 0`, else `qsize() >= maxsize`. -/
def PyQueue.isFull (q : PyQueue) : Bool :=
  decide (0 < q.maxsize ∧ q.maxsize ≤ (q.items.length : Int))

/-- `put(item, block=False)`: `(queue', True)` on success, `(queue, False)`
when `queue.Full` is raised. -/
def pyQueuePutNowait (q : PyQueue) (item : String) : PyQueue × Bool :=
  if q.isFull then (q, false)
  else (⟨q.maxsize, q.items ++ [item]⟩, true)

/-- `get_nowait()`: the oldest item and the rest, or `none` for
`queue.Empty`. -/
def pyQueueGetNowait (q : PyQueue) : Option (String × PyQueue) :=
  match q.items with
  | [] => none
  | item :: rest => some (item, ⟨q.maxsize, rest⟩)

/-- `wiegand_queue = queue.Queue()` (src/app.py line 98): created with the
default `maxsize = 0`. -/
def wiegand_queue_init : PyQueue := ⟨0, []⟩

/-- The hand-off step of `run_wiegand_reader_thread` for one assembled frame
(src/app.py lines 588-598): decode; on `None` nothing is enqueued, otherwise
`wiegand_queue.put(str(cid), block=False)` (a full queue drops the item and
logs an error). -/
def wiegandHandleFrame (q : PyQueue) (bits : List Nat) : PyQueue :=
  match _wiegand_process_data bits with
  | none => q
  | some cid => (pyQueuePutNowait q (toString cid)).1

/-! ## Authorization records and schedule evaluation (src/app.py 651-662) -/

/-- ASCII-faithful model of Python `str.lower()` (day strings and weekday
abbreviations are ASCII). -/
def lowerString (s : String) : String :=
  String.mk (s.toList.map Char.toLower)

/-- Python `str.split(',')` on the character list: splits at every comma and
keeps empty pieces (`"".split(',') == ['']`). -/
def splitCommasAux : List Char → List (List Char)
  | [] => [[]]
  | ',' :: rest => [] :: splitCommasAux rest
  | c :: rest =>
    match splitCommasAux rest with
    | [] => [[c]]
    | piece :: pieces => (c :: piece) :: pieces

/-- Python `s.split(',')`. -/
def splitCommas (s : String) : List String :=
  (splitCommasAux s.toList).map String.mk

/-- Python falsiness of an optional string column: `not x` holds for `None`
and for the empty string. -/
def pyStrFalsy : Option String → Bool
  | none => true
  | some s => s == ""

/-- The fields of the `Keyfob` model that the access-decision path reads.
Times of day are abstracted as `Nat` (e.g. minutes since midnight):
`datetime.time` values compare by their linear order, and in Python 3 a
`time` object is always truthy, so "no start/end configured" is exactly
`None`, modelled as `none`. -/
structure Keyfob where
  uid : String
  is_active : Bool
  activation_schedule_enabled : Bool
  activation_days : Option String
  activation_start_time : Option Nat
  activation_end_time : Option Nat
deriving DecidableEq

/-- `keyfob.activation_days.lower().split(',')` (src/app.py line 656); for a
`None` column the code never reaches the split (it has already denied), so
the day set is empty. -/
def keyfobAllowedDays (keyfob : Keyfob) : List String :=
  match keyfob.activation_days with
  | none => []
  | some s => splitCommas (lowerString s)

/-- `check_schedule(keyfob)` (src/app.py lines 651-662), with the ambient
clock passed explicitly: `current_weekday` is `now.strftime('%a').lower()`
and `current_time` the current time of day.  Not schedule-enabled: grant;
no/empty day string: deny; weekday not in the allowed set: deny; day allowed
but start or end missing: grant (whole day); otherwise the window check,
inclusive-start/exclusive-end, wrapping past midnight when `start > end`. -/
def check_schedule (keyfob : Keyfob) (current_weekday : String)
    (current_time : Nat) : Bool :=
  if keyfob.activation_schedule_enabled = false then true
  else if pyStrFalsy keyfob.activation_days then false
  else if current_weekday ∈ keyfobAllowedDays keyfob then
    match keyfob.activation_start_time, keyfob.activation_end_time with
    | some start, some stop =>
      if start ≤ stop then decide (start ≤ current_time ∧ current_time < stop)
      else decide (current_time ≥ start ∨ current_time < stop)
    | _, _ => true
  else false

/-- The lowercase weekday abbreviations `now.strftime('%a').lower()` can
produce. -/
def weekdayNames : List String :=
  ["mon", "tue", "wed", "thu", "fri", "sat", "sun"]

/-! ## The access-decision tick (src/app.py lines 678-725) -/

/-- The outcome of processing one dequeued UID, as far as the control flow of
`process_wiegand_queue_task` observes it: the `Keyfob.query...first()` result,
or an exception raised while handling the item (`OperationalError` vs any
other exception). -/
inductive DbLookup where
  | found (keyfob : Keyfob)
  | notFound
  | opError
  | otherExn
deriving DecidableEq

/-- What one iteration of the tick logs/does for one UID. -/
inductive TickEvent where
  | granted (uid : String)
  | deniedSchedule (uid : String)
  | deniedInactive (uid : String)
  | deniedUnknown (uid : String)
  | dbOperationalError (uid : String)
  | otherError (uid : String)
deriving DecidableEq

/-- The drain loop of `process_wiegand_queue_task` (src/app.py lines
685-725) over the queue contents, with the per-UID budget left
(`max_per_cycle - processed`).  Each iteration removes the head with
`get_nowait()` *before* handling it; an `OperationalError` then breaks out of
the loop — the removed item is gone from the queue either way, and only
`task_done()` bookkeeping is skipped.  Any other exception marks the item
done and the loop continues.  Returns the remaining queue contents and the
events of this tick. -/
def processQueueAux (db : String → DbLookup) (current_weekday : String)
    (current_time : Nat) : List String → Nat → List String × List TickEvent
  | remaining, 0 => (remaining, [])
  | [], _ => ([], [])
  | uid :: rest, budget + 1 =>
    match db uid with
    | .opError => (rest, [.dbOperationalError uid])
    | .otherExn =>
      let r := processQueueAux db current_weekday current_time rest budget
      (r.1, .otherError uid :: r.2)
    | .notFound =>
      let r := processQueueAux db current_weekday current_time rest budget
      (r.1, .deniedUnknown uid :: r.2)
    | .found keyfob =>
      let r := processQueueAux db current_weekday current_time rest budget
      if keyfob.is_active then
        if check_schedule keyfob current_weekday current_time then
          (r.1, .granted uid :: r.2)
        else (r.1, .deniedSchedule uid :: r.2)
      else (r.1, .deniedInactive uid :: r.2)

/-- One scheduler tick of `process_wiegand_queue_task`:
`max_per_cycle = 10` (src/app.py line 682). -/
def process_wiegand_queue_task (db : String → DbLookup)
    (current_weekday : String) (current_time : Nat) (queueItems : List String) :
    List String × List TickEvent :=
  processQueueAux db current_weekday current_time queueItems 10

/-! ## The door relay (src/app.py lines 435-456)

`activate_relay` is embedded over an oracle saying which pigpio operations
succeed (`pigpio.pi()` connecting, the unlock write, the re-lock write, the
re-assert write in the `except` block).  The result records the outcome
tuple's boolean, every attempted relay write in order (level 0 = unlocked,
level 1 = locked), the `activation_time` that was computed, and how long the
relay was actually held unlocked (the `time.sleep` after a successful
unlock write). -/

structure RelayOracle where
  connected : Bool
  write0Ok : Bool
  write1Ok : Bool
  reassertOk : Bool
deriving DecidableEq

structure RelayWrite where
  level : Nat
  ok : Bool
deriving DecidableEq

structure RelayResult where
  ok : Bool
  writes : List RelayWrite
  usedTime : Option Int
  slept : Option Int
deriving DecidableEq

/-- `activate_relay(duration=None)` (src/app.py lines 435-456).
`HARDWARE_AVAILABLE` false: fail at once, no write.  Otherwise
`activation_time = duration if duration is not None else opening_time` (the
caller's value is **not** clamped; clamping happens only inside
`get_opening_time`).  Connection failure raises before any write; a failed
unlock write, or a failed re-lock write after the sleep, falls into the
`except` block which re-asserts the locked level (best effort, since the
connection is still up in those branches). -/
def activate_relay (hardware_available : Bool) (o : RelayOracle)
    (duration : Option Int) (opening_time : Int) : RelayResult :=
  if hardware_available = false then ⟨false, [], none, none⟩
  else
    let activation_time := duration.getD opening_time
    if o.connected = false then ⟨false, [], some activation_time, none⟩
    else if o.write0Ok = false then
      ⟨false, [⟨0, false⟩, ⟨1, o.reassertOk⟩], some activation_time, none⟩
    else if o.write1Ok = false then
      ⟨false, [⟨0, true⟩, ⟨1, false⟩, ⟨1, o.reassertOk⟩],
        some activation_time, some activation_time⟩
    else ⟨true, [⟨0, true⟩, ⟨1, true⟩], some activation_time,
      some activation_time⟩

/-- The last attempted relay write, if any, targets the locked level. -/
def lastWriteIsLockLevel (writes : List RelayWrite) : Bool :=
  match writes.getLast? with
  | none => true
  | some w => w.level == 1

/-! ## Opening-time configuration (src/app.py lines 294-308)

`get_opening_time` reads `opening_time` from the persisted JSON settings.
`load_json_config` returns the default dict (`opening_time` = 5) when the
file is unreadable; `settings.get('opening_time', DEFAULT)` yields the
default when the key is missing.  The stored JSON value is an int, a string,
a bool or null; `int(value)` succeeds on ints, bools and integer-literal
strings and raises `ValueError`/`TypeError` otherwise. -/

inductive SettingsVal where
  | vint (n : Int)
  | vstr (s : String)
  | vbool (b : Bool)
  | vnull
deriving DecidableEq

/-- The state of the `opening_time` entry in `system_settings.json`. -/
inductive SettingsState where
  | unreadable
  | missingKey
  | stored (v : SettingsVal)
deriving DecidableEq

/-- `load_system_settings().get('opening_time', DEFAULT_OPENING_TIME_SECONDS)`
(src/app.py lines 295-304). -/
def settingsGetOpeningTime : SettingsState → SettingsVal
  | .unreadable => .vint DEFAULT_OPENING_TIME_SECONDS
  | .missingKey => .vint DEFAULT_OPENING_TIME_SECONDS
  | .stored v => v

/-- Python `str.strip()` of surrounding whitespace, on the char list. -/
def trimChars (cs : List Char) : List Char :=
  ((cs.dropWhile Char.isWhitespace).reverse.dropWhile Char.isWhitespace).reverse

/-- A nonempty run of decimal digits with single underscores allowed only
between digits — the digit part Python's `int(str)` accepts. -/
def digitsWithUnderscores : List Char → Bool
  | [] => false
  | [c] => c.isDigit
  | c :: '_' :: rest => c.isDigit && digitsWithUnderscores rest
  | c :: rest => c.isDigit && digitsWithUnderscores rest

/-- The value of such a digit run. -/
def digitsValue (cs : List Char) : Nat :=
  cs.foldl (fun acc c => if c = '_' then acc else 10 * acc + (c.toNat - 48)) 0

/-- Python `int(s)` for a string: optional surrounding whitespace, optional
sign, then decimal digits; anything else raises `ValueError` (`none`). -/
def pyIntOfString (s : String) : Option Int :=
  match trimChars s.toList with
  | '+' :: rest =>
    if digitsWithUnderscores rest then some (digitsValue rest : Int) else none
  | '-' :: rest =>
    if digitsWithUnderscores rest then some (-(digitsValue rest : Int)) else none
  | cs => if digitsWithUnderscores cs then some (digitsValue cs : Int) else none

/-- Python `int(value)` on a JSON value: ints pass through, bools are 0/1
(`bool` subclasses `int`), strings are parsed, `None` raises `TypeError`. -/
def pyInt? : SettingsVal → Option Int
  | .vint n => some n
  | .vbool b => some (if b then 1 else 0)
  | .vnull => none
  | .vstr s => pyIntOfString s

/-- `get_opening_time()` (src/app.py lines 300-308):
`max(1, min(60, int(settings.get('opening_time', DEFAULT))))`, falling back
to the default on a `ValueError`/`TypeError` from the conversion. -/
def get_opening_time (st : SettingsState) : Int :=
  match pyInt? (settingsGetOpeningTime st) with
  | some time_val => max 1 (min 60 time_val)
  | none => DEFAULT_OPENING_TIME_SECONDS

/-! ## The full settings model, with floats and raising paths

`json.load` can also yield floats (including `Infinity`, `-Infinity`, `NaN`,
which Python's json parser accepts) and a non-dict top level.  These paths
leave the happy path of the narrow model above:

* a finite float converts by truncation toward zero (`int(2.5) == 2`);
* `int(±Infinity)` raises `OverflowError`, which `get_opening_time`'s
  `except (ValueError, TypeError)` does not catch — the call raises;
* `int(NaN)` raises `ValueError` — caught, default returned;
* a readable file holding valid non-dict JSON (e.g. `[]`) reaches
  `config.setdefault` in `load_json_config` (src/app.py line 279), which
  raises `AttributeError`; neither `except` clause (lines 282, 306) catches
  it, so `get_opening_time` raises.

Every finite IEEE-754 double is a rational number and `int()` truncates it
exactly, so finite floats are modelled as exact values in `ℚ` (no float
arithmetic occurs in this code path). -/

/-- A Python float as `json.load` produces it. -/
inductive PyFloat where
  | finite (q : ℚ)
  | inf
  | negInf
  | nan
deriving DecidableEq

/-- A JSON value stored under `"opening_time"`: `jcontainer` stands for a
JSON array or object value. -/
inductive JsonVal where
  | jint (n : Int)
  | jfloat (f : PyFloat)
  | jstr (s : String)
  | jbool (b : Bool)
  | jnull
  | jcontainer
deriving DecidableEq

/-- The exceptions that can propagate out of `get_opening_time`. -/
inductive PyExn where
  | attributeError
  | overflowError
deriving DecidableEq

/-- The outcome of Python `int(value)`: a value, an exception of the classes
`get_opening_time` catches (`ValueError`/`TypeError`), or an uncaught
`OverflowError`. -/
inductive PyIntOutcome where
  | ok (n : Int)
  | caught
  | overflow
deriving DecidableEq

/-- `int(f)` for a float: truncation toward zero on finite values,
`OverflowError` on ±Infinity, `ValueError` on NaN. -/
def pyIntOfFloat : PyFloat → PyIntOutcome
  | .finite q => .ok (if q < 0 then ⌈q⌉ else ⌊q⌋)
  | .inf => .overflow
  | .negInf => .overflow
  | .nan => .caught

/-- `int(value)` on a JSON value: ints and bools pass through, finite floats
truncate, strings parse or raise `ValueError`, `None` and containers raise
`TypeError`. -/
def pyIntOfJson : JsonVal → PyIntOutcome
  | .jint n => .ok n
  | .jfloat f => pyIntOfFloat f
  | .jbool b => .ok (if b then 1 else 0)
  | .jnull => .caught
  | .jcontainer => .caught
  | .jstr s =>
    match pyIntOfString s with
    | some n => .ok n
    | none => .caught

/-- The full state of `system_settings.json` as `get_opening_time` can see
it. -/
inductive SettingsFile where
  | missingFile
  | unreadable
  | notADict
  | missingKey
  | stored (v : JsonVal)
deriving DecidableEq

/-- `load_system_settings().get('opening_time', DEFAULT)` over the full file
state (src/app.py lines 272-284, 295-298): the default for a missing file, an
unreadable/invalid-JSON file (both `except` branches of `load_json_config`)
or a dict without the key (`setdefault` seeds it); the stored value for a
dict with the key; `AttributeError` for a non-dict top level. -/
def settingsOpeningTimeFull : SettingsFile → Except PyExn JsonVal
  | .missingFile => .ok (.jint DEFAULT_OPENING_TIME_SECONDS)
  | .unreadable => .ok (.jint DEFAULT_OPENING_TIME_SECONDS)
  | .notADict => .error .attributeError
  | .missingKey => .ok (.jint DEFAULT_OPENING_TIME_SECONDS)
  | .stored v => .ok v

/-- `get_opening_time()` (src/app.py lines 300-308) over the full settings
model.  `Except.error` models an exception propagating out of the call:
`AttributeError` from the load, `OverflowError` from `int(±Infinity)`;
`ValueError`/`TypeError` are caught and yield the default. -/
def get_opening_time_full (st : SettingsFile) : Except PyExn Int :=
  match settingsOpeningTimeFull st with
  | .error e => .error e
  | .ok v =>
    match pyIntOfJson v with
    | .ok time_val => .ok (max 1 (min 60 time_val))
    | .caught => .ok DEFAULT_OPENING_TIME_SECONDS
    | .overflow => .error .overflowError

/-- The narrow model's values inside the full model. -/
def SettingsVal.toJson : SettingsVal → JsonVal
  | .vint n => .jint n
  | .vstr s => .jstr s
  | .vbool b => .jbool b
  | .vnull => .jnull

/-- The narrow model's states inside the full model. -/
def SettingsState.toFile : SettingsState → SettingsFile
  | .unreadable => .unreadable
  | .missingKey => .missingKey
  | .stored v => .stored v.toJson

/-! ## Concrete example data used by the witnesses -/

/-- The 26-bit end-to-end example frame of spec §8. -/
def exampleFrame26 : List Nat :=
  [1, 0, 1, 1, 0, 0, 0, 0, 0, 0, 0, 0, 0, 0, 0, 1,
   0, 0, 0, 0, 0, 0, 0, 0, 0, 1]

/-- A keyfob with the spec's midnight-wrapping schedule 22:00 → 06:00
(times in minutes since midnight), every day allowed. -/
def keyfobWrapExample : Keyfob :=
  ⟨"A1B2C3", true, true, some "mon,tue,wed,thu,fri,sat,sun",
    some 1320, some 360⟩

/-! ## Helper lemmas about bit strings -/

theorem binFoldl_eq_beValue (bits : List Nat) :
    ∀ acc : Nat, bits.foldl (fun a b => 2 * a + b) acc =
      acc * 2 ^ bits.length + beValue bits := by
  induction bits with
  | nil => intro acc; simp [beValue]
  | cons b bs ih =>
    intro acc
    simp only [List.foldl_cons, ih, beValue, List.length_cons, pow_succ]
    ring

theorem beValue_lt (bits : List Nat) (hb : ∀ b ∈ bits, b ≤ 1) :
    beValue bits < 2 ^ bits.length := by
  induction bits with
  | nil => simp [beValue]
  | cons b bs ih =>
    have hb' : ∀ x ∈ bs, x ≤ 1 := fun x hx => hb x (List.mem_cons_of_mem _ hx)
    have h1 : b ≤ 1 := hb b (List.mem_cons_self _ _)
    have h2 : beValue bs < 2 ^ bs.length := ih hb'
    simp only [beValue, List.length_cons, pow_succ]
    nlinarith [pow_pos (by norm_num : (0:ℕ) < 2) bs.length]

theorem listSlice_sublist (bits : List Nat) (i j : Nat) :
    (listSlice bits i j).Sublist bits :=
  ((bits.drop i).take_sublist _).trans (bits.drop_sublist i)

theorem listSlice_all_le_one (bits : List Nat) (i j : Nat)
    (hb : ∀ b ∈ bits, b ≤ 1) : ∀ b ∈ listSlice bits i j, b ≤ 1 :=
  fun b hmem => hb b ((listSlice_sublist bits i j).mem hmem)

theorem listSlice_length (bits : List Nat) (i j : Nat) (hij : i ≤ j)
    (hj : j ≤ bits.length) : (listSlice bits i j).length = j - i := by
  simp only [listSlice, List.length_take, List.length_drop]
  omega

theorem pyIntBase2?_eq_beValue (bits : List Nat) (hne : bits ≠ [])
    (hb : ∀ b ∈ bits, b ≤ 1) : pyIntBase2? bits = some (beValue bits) := by
  have h1 : bits.isEmpty = false := by
    cases bits with
    | nil => exact absurd rfl hne
    | cons b bs => rfl
  have h2 : bits.all (fun b => b ≤ 1) = true := by
    rw [List.all_eq_true]
    intro x hx
    exact decide_eq_true (hb x hx)
  rw [pyIntBase2?, h1, if_neg (by simp), h2, if_pos rfl]
  rw [binFoldl_eq_beValue bits 0]
  simp

/-- The decoder's output on any 26-bit frame: the big-endian values of
`bits[1:9]` and `bits[9:25]` combined as `(fc << 16) | cn`. -/
theorem wiegand_decode_eq (bits : List Nat) (h : bits.length = 26)
    (hb : ∀ b ∈ bits, b ≤ 1) :
    _wiegand_process_data bits =
      some ((beValue (listSlice bits 1 9) <<< 16) |||
        beValue (listSlice bits 9 25)) := by
  have l1 : (listSlice bits 1 9).length = 8 := by
    rw [listSlice_length bits 1 9 (by norm_num) (by omega)]
  have l2 : (listSlice bits 9 25).length = 16 := by
    rw [listSlice_length bits 9 25 (by norm_num) (by omega)]
  have hfc : pyIntBase2? (listSlice bits 1 9) =
      some (beValue (listSlice bits 1 9)) := by
    refine pyIntBase2?_eq_beValue _ ?_ (listSlice_all_le_one bits 1 9 hb)
    intro hnil
    rw [hnil] at l1
    simp at l1
  have hcn : pyIntBase2? (listSlice bits 9 25) =
      some (beValue (listSlice bits 9 25)) := by
    refine pyIntBase2?_eq_beValue _ ?_ (listSlice_all_le_one bits 9 25 hb)
    intro hnil
    rw [hnil] at l2
    simp at l2
  rw [_wiegand_process_data, if_neg (by rw [h]; simp [WIEGAND_EXPECTED_BITS]),
    hfc, hcn]

/-! ## C1: field extraction and the combined ID -/

/-- C1.  Every 26-bit frame (bits 0/1) decodes to
`(facility << 16) | card_number`, with facility the big-endian value of
`bits[1:9]` (so at most 255) and card the big-endian value of `bits[9:25]`
(so at most 65535). -/
theorem wiegand_extraction_correct (bits : List Nat) (h : bits.length = 26)
    (hb : ∀ b ∈ bits, b ≤ 1) :
    _wiegand_process_data bits =
      some ((beValue (listSlice bits 1 9) <<< 16) |||
        beValue (listSlice bits 9 25)) ∧
    beValue (listSlice bits 1 9) ≤ 255 ∧
    beValue (listSlice bits 9 25) ≤ 65535 := by
  refine ⟨wiegand_decode_eq bits h hb, ?_, ?_⟩
  · have hlt := beValue_lt (listSlice bits 1 9) (listSlice_all_le_one bits 1 9 hb)
    rw [listSlice_length bits 1 9 (by norm_num) (by omega)] at hlt
    omega
  · have hlt := beValue_lt (listSlice bits 9 25) (listSlice_all_le_one bits 9 25 hb)
    rw [listSlice_length bits 9 25 (by norm_num) (by omega)] at hlt
    omega

/-- Witness for C1 at the spec's §8 example frame. -/
theorem wiegand_extraction_correct_witness :
    _wiegand_process_data exampleFrame26 =
      some ((beValue (listSlice exampleFrame26 1 9) <<< 16) |||
        beValue (listSlice exampleFrame26 9 25)) ∧
    beValue (listSlice exampleFrame26 1 9) ≤ 255 ∧
    beValue (listSlice exampleFrame26 9 25) ≤ 65535 :=
  wiegand_extraction_correct exampleFrame26 (by decide) (by decide)

/-! ## C2: frames of the wrong length are rejected -/

/-- C2.  A bit sequence whose length is not 26 is rejected: the decoder
returns `None` and the reader thread enqueues nothing for that frame. -/
theorem wiegand_wrong_length_rejected (bits : List Nat) (q : PyQueue)
    (h : bits.length ≠ 26) :
    _wiegand_process_data bits = none ∧ wiegandHandleFrame q bits = q := by
  have hd : _wiegand_process_data bits = none := by
    rw [_wiegand_process_data, if_pos (by simpa [WIEGAND_EXPECTED_BITS] using h)]
  exact ⟨hd, by rw [wiegandHandleFrame, hd]⟩

/-- Witness for C2 at a 25-bit frame and the initial queue. -/
theorem wiegand_wrong_length_rejected_witness :
    _wiegand_process_data (List.replicate 25 1) = none ∧
    wiegandHandleFrame wiegand_queue_init (List.replicate 25 1) =
      wiegand_queue_init :=
  wiegand_wrong_length_rejected (List.replicate 25 1) wiegand_queue_init
    (by decide)

/-! ## C3: parity failures do not block extraction -/

theorem listSlice_withCorrectParity (bits : List Nat) (h : bits.length = 26)
    (i j : Nat) (h1 : 1 ≤ i) (hij : i ≤ j) (hj : j ≤ 25) :
    listSlice (wiegandWithCorrectParity bits) i j = listSlice bits i j := by
  have hm : (listSlice bits 1 25).length = 24 :=
    listSlice_length bits 1 25 (by norm_num) (by omega)
  obtain ⟨i', rfl⟩ : ∃ i', i = i' + 1 := ⟨i - 1, by omega⟩
  show ((wiegandWithCorrectParity bits).drop (i' + 1)).take (j - (i' + 1)) = _
  rw [wiegandWithCorrectParity, List.drop_succ_cons,
    List.drop_append_of_le_length (by omega),
    List.take_append_of_le_length (by rw [List.length_drop, hm]; omega)]
  simp only [listSlice]
  rw [List.drop_take, List.drop_drop, List.take_take]
  have e1 : min (j - (i' + 1)) (25 - 1 - i') = j - (i' + 1) := by omega
  have e2 : 1 + i' = i' + 1 := by omega
  rw [e1, e2]

theorem withCorrectParity_length (bits : List Nat) (h : bits.length = 26) :
    (wiegandWithCorrectParity bits).length = 26 := by
  have hm : (listSlice bits 1 25).length = 24 :=
    listSlice_length bits 1 25 (by norm_num) (by omega)
  simp [wiegandWithCorrectParity, hm]

theorem withCorrectParity_bits_le_one (bits : List Nat)
    (hb : ∀ b ∈ bits, b ≤ 1) :
    ∀ b ∈ wiegandWithCorrectParity bits, b ≤ 1 := by
  intro b hmem
  rw [wiegandWithCorrectParity] at hmem
  rcases List.mem_cons.mp hmem with rfl | hmem'
  · omega
  rcases List.mem_append.mp hmem' with hmid | hlast
  · exact hb b ((listSlice_sublist bits 1 25).mem hmid)
  · rcases List.mem_singleton.mp hlast with rfl
    omega

theorem withCorrectParity_getD_zero (bits : List Nat) :
    (wiegandWithCorrectParity bits).getD 0 0 = (listSlice bits 1 13).sum % 2 :=
  rfl

theorem withCorrectParity_getD_last (bits : List Nat) (h : bits.length = 26) :
    (wiegandWithCorrectParity bits).getD 25 0 =
      1 - (listSlice bits 13 25).sum % 2 := by
  have hm : (listSlice bits 1 25).length = 24 :=
    listSlice_length bits 1 25 (by norm_num) (by omega)
  rw [wiegandWithCorrectParity, List.getD_eq_getElem?_getD,
    List.getElem?_cons_succ, List.getElem?_append_right (by omega), hm]
  simp

/-- C3.  Parity failures do not block extraction: on any 26-bit frame the
decoder returns exactly the combined ID it would return on the same frame
with both parity bits corrected (a frame that passes both checks), and that
value is the usual `(facility << 16) | card`.  The parity checks only decide
what gets logged. -/
theorem wiegand_parity_does_not_block (bits : List Nat) (h : bits.length = 26)
    (hb : ∀ b ∈ bits, b ≤ 1) :
    wiegandParityEvenOk (wiegandWithCorrectParity bits) = true ∧
    wiegandParityOddOk (wiegandWithCorrectParity bits) = true ∧
    _wiegand_process_data bits =
      _wiegand_process_data (wiegandWithCorrectParity bits) ∧
    _wiegand_process_data bits =
      some ((beValue (listSlice bits 1 9) <<< 16) |||
        beValue (listSlice bits 9 25)) := by
  refine ⟨?_, ?_, ?_, wiegand_decode_eq bits h hb⟩
  · rw [wiegandParityEvenOk,
      listSlice_withCorrectParity bits h 1 13 (by norm_num) (by norm_num)
        (by norm_num),
      withCorrectParity_getD_zero]
    simp
  · rw [wiegandParityOddOk,
      listSlice_withCorrectParity bits h 13 25 (by norm_num) (by norm_num)
        (by norm_num),
      withCorrectParity_getD_last bits h]
    rcases Nat.mod_two_eq_zero_or_one (listSlice bits 13 25).sum with h2 | h2 <;>
      rw [h2] <;> decide
  · rw [wiegand_decode_eq bits h hb,
      wiegand_decode_eq (wiegandWithCorrectParity bits)
        (withCorrectParity_length bits h) (withCorrectParity_bits_le_one bits hb),
      listSlice_withCorrectParity bits h 1 9 (by norm_num) (by norm_num)
        (by norm_num),
      listSlice_withCorrectParity bits h 9 25 (by norm_num) (by norm_num)
        (by norm_num)]

/-- Witness for C3 at the all-zero frame (a frame that fails the odd-parity
check, yet decodes). -/
theorem wiegand_parity_does_not_block_witness :
    wiegandParityEvenOk (wiegandWithCorrectParity (List.replicate 26 0)) = true ∧
    wiegandParityOddOk (wiegandWithCorrectParity (List.replicate 26 0)) = true ∧
    _wiegand_process_data (List.replicate 26 0) =
      _wiegand_process_data (wiegandWithCorrectParity (List.replicate 26 0)) ∧
    _wiegand_process_data (List.replicate 26 0) =
      some ((beValue (listSlice (List.replicate 26 0) 1 9) <<< 16) |||
        beValue (listSlice (List.replicate 26 0) 9 25)) :=
  wiegand_parity_does_not_block (List.replicate 26 0) (by decide) (by decide)

/-! ## C9: encode/decode round-trip -/

theorem natToBits_length (width n : Nat) : (natToBits width n).length = width := by
  induction width generalizing n with
  | zero => rfl
  | succ w ih => simp [natToBits, ih]

theorem natToBits_le_one (width n : Nat) : ∀ b ∈ natToBits width n, b ≤ 1 := by
  induction width generalizing n with
  | zero => intro b hb; simp [natToBits] at hb
  | succ w ih =>
    intro b hb
    rw [natToBits] at hb
    rcases List.mem_append.mp hb with h | h
    · exact ih (n / 2) b h
    · rcases List.mem_singleton.mp h with rfl
      omega

theorem beValue_append_singleton (bs : List Nat) (b : Nat) :
    beValue (bs ++ [b]) = 2 * beValue bs + b := by
  induction bs with
  | nil => simp [beValue]
  | cons x xs ih =>
    simp only [List.cons_append, beValue, ih, List.append_eq,
      List.length_append, List.length_singleton, pow_succ, pow_add]
    ring

theorem beValue_natToBits (width n : Nat) (h : n < 2 ^ width) :
    beValue (natToBits width n) = n := by
  induction width generalizing n with
  | zero =>
    have : n = 0 := by simpa using h
    subst this
    rfl
  | succ w ih =>
    have hpow : (2 : Nat) ^ (w + 1) = 2 * 2 ^ w := by rw [pow_succ]; ring
    rw [hpow] at h
    rw [natToBits, beValue_append_singleton, ih (n / 2) (by omega)]
    omega

theorem shiftLeft_lor_of_lt (a b n : Nat) (hb : b < 2 ^ n) :
    (a <<< n) ||| b = a * 2 ^ n + b := by
  induction n generalizing a b with
  | zero =>
    have : b = 0 := by simpa using hb
    subst this
    simp
  | succ n ih =>
    have hpow : (2 : Nat) ^ (n + 1) = 2 * 2 ^ n := by rw [pow_succ]; ring
    rw [hpow] at hb
    have hb2 : b / 2 < 2 ^ n := by omega
    have hsl : a <<< (n + 1) = Nat.bit false (a <<< n) := by
      simp only [Nat.shiftLeft_eq, Nat.bit, cond_false, hpow]
      ring
    have hbd : b = Nat.bit (decide (b % 2 = 1)) (b / 2) := by
      rcases Nat.mod_two_eq_zero_or_one b with h2 | h2 <;>
        simp [Nat.bit, h2] <;> omega
    rw [hsl]
    conv_lhs => rw [hbd]
    rw [Nat.lor_bit, ih a (b / 2) hb2, Nat.bit_val]
    have hmul : a * 2 ^ (n + 1) = 2 * (a * 2 ^ n) := by rw [hpow]; ring
    rw [hmul]
    rcases Nat.mod_two_eq_zero_or_one b with h2 | h2 <;> simp [h2] <;> omega

theorem wiegandEncode_slice_facility (facility card p0 p25 : Nat) :
    listSlice (wiegandEncode facility card p0 p25) 1 9 =
      natToBits 8 facility := by
  have hA : (natToBits 8 facility).length = 8 := natToBits_length 8 facility
  have hB : (natToBits 16 card).length = 16 := natToBits_length 16 card
  show ((wiegandEncode facility card p0 p25).drop 1).take 8 = _
  rw [wiegandEncode, List.drop_succ_cons, List.drop_zero,
    List.take_append_of_le_length (by rw [List.length_append]; omega),
    List.take_append_of_le_length (by omega),
    List.take_of_length_le (by omega)]

theorem wiegandEncode_slice_card (facility card p0 p25 : Nat) :
    listSlice (wiegandEncode facility card p0 p25) 9 25 =
      natToBits 16 card := by
  have hA : (natToBits 8 facility).length = 8 := natToBits_length 8 facility
  have hB : (natToBits 16 card).length = 16 := natToBits_length 16 card
  show ((wiegandEncode facility card p0 p25).drop 9).take 16 = _
  rw [wiegandEncode, List.drop_succ_cons,
    List.drop_append_of_le_length (by rw [List.length_append]; omega),
    List.drop_append_of_le_length (by omega),
    List.drop_eq_nil_of_le (by omega), List.nil_append,
    List.take_append_of_le_length (by omega),
    List.take_of_length_le (by omega)]

theorem wiegandEncode_length (facility card p0 p25 : Nat) :
    (wiegandEncode facility card p0 p25).length = 26 := by
  simp [wiegandEncode, natToBits_length]

theorem wiegandEncode_le_one (facility card p0 p25 : Nat)
    (hp0 : p0 ≤ 1) (hp25 : p25 ≤ 1) :
    ∀ b ∈ wiegandEncode facility card p0 p25, b ≤ 1 := by
  intro b hb
  rw [wiegandEncode] at hb
  rcases List.mem_cons.mp hb with rfl | hb'
  · exact hp0
  rcases List.mem_append.mp hb' with h | h
  · rcases List.mem_append.mp h with h' | h'
    · exact natToBits_le_one 8 facility b h'
    · exact natToBits_le_one 16 card b h'
  · rcases List.mem_singleton.mp h with rfl
    exact hp25

/-- C9.  Round-trip: encoding `(facility, card)` with facility ∈ [0, 255] and
card ∈ [0, 65535] into a 26-bit frame via the inverse of the extraction rule
(any parity bits at positions 0 and 25) and decoding yields the combined ID
`(facility << 16) | card`, from which the pair is recovered by `>> 16` and
`% 65536`. -/
theorem wiegand_round_trip (facility card p0 p25 : Nat)
    (hf : facility ≤ 255) (hc : card ≤ 65535) (hp0 : p0 ≤ 1) (hp25 : p25 ≤ 1) :
    _wiegand_process_data (wiegandEncode facility card p0 p25) =
      some ((facility <<< 16) ||| card) ∧
    ((facility <<< 16) ||| card) >>> 16 = facility ∧
    ((facility <<< 16) ||| card) % 65536 = card := by
  have hpow16 : (2 : Nat) ^ 16 = 65536 := by norm_num
  have hpow8 : (2 : Nat) ^ 8 = 256 := by norm_num
  have hadd : (facility <<< 16) ||| card = facility * 65536 + card := by
    have h16 : card < 2 ^ 16 := by omega
    have := shiftLeft_lor_of_lt facility card 16 h16
    rw [hpow16] at this
    exact this
  refine ⟨?_, ?_, ?_⟩
  · rw [wiegand_decode_eq (wiegandEncode facility card p0 p25)
      (wiegandEncode_length facility card p0 p25)
      (wiegandEncode_le_one facility card p0 p25 hp0 hp25),
      wiegandEncode_slice_facility, wiegandEncode_slice_card,
      beValue_natToBits 8 facility (by omega),
      beValue_natToBits 16 card (by omega)]
  · rw [hadd, Nat.shiftRight_eq_div_pow, hpow16]
    omega
  · rw [hadd]
    omega

/-- Witness for C9 at facility 161, card 63845. -/
theorem wiegand_round_trip_witness :
    _wiegand_process_data (wiegandEncode 161 63845 1 0) =
      some ((161 <<< 16) ||| 63845) ∧
    ((161 <<< 16) ||| 63845) >>> 16 = 161 ∧
    ((161 <<< 16) ||| 63845) % 65536 = 63845 :=
  wiegand_round_trip 161 63845 1 0 (by decide) (by decide) (by decide)
    (by decide)

/-! ## C4: schedule evaluation -/

theorem weekdayNames_ne_empty (wd : String) (h : wd ∈ weekdayNames) :
    wd ≠ "" := by
  fin_cases h <;> decide

theorem pyStrFalsy_eq_false_of_mem_allowed (keyfob : Keyfob) (wd : String)
    (hne : wd ≠ "") (h : wd ∈ keyfobAllowedDays keyfob) :
    pyStrFalsy keyfob.activation_days = false := by
  rcases hd : keyfob.activation_days with _ | s
  · rw [keyfobAllowedDays, hd] at h
    simp at h
  · rcases eq_or_ne s "" with rfl | hs
    · have hall : keyfobAllowedDays keyfob = [""] := by
        rw [keyfobAllowedDays, hd]
        decide
      rw [hall] at h
      exact absurd (List.mem_singleton.mp h) hne
    · show (s == "") = false
      exact beq_eq_false_iff_ne.mpr hs

/-- C4.  `check_schedule` for every current weekday and time of day: schedule
disabled always grants; enabled with the weekday outside the allowed set
denies; weekday allowed with no start or no end configured grants (whole
day); with both configured, `start <= end` grants exactly on
`start <= t < end`, and `start > end` (wrapping midnight) grants exactly on
`t >= start or t < end`. -/
theorem check_schedule_cases (keyfob : Keyfob) (wd : String) (t : Nat)
    (hwd : wd ∈ weekdayNames) :
    (keyfob.activation_schedule_enabled = false →
      check_schedule keyfob wd t = true) ∧
    (keyfob.activation_schedule_enabled = true →
      wd ∉ keyfobAllowedDays keyfob → check_schedule keyfob wd t = false) ∧
    (keyfob.activation_schedule_enabled = true →
      wd ∈ keyfobAllowedDays keyfob →
      (keyfob.activation_start_time = none ∨
        keyfob.activation_end_time = none) →
      check_schedule keyfob wd t = true) ∧
    (∀ start stop, keyfob.activation_schedule_enabled = true →
      wd ∈ keyfobAllowedDays keyfob →
      keyfob.activation_start_time = some start →
      keyfob.activation_end_time = some stop → start ≤ stop →
      (check_schedule keyfob wd t = true ↔ (start ≤ t ∧ t < stop))) ∧
    (∀ start stop, keyfob.activation_schedule_enabled = true →
      wd ∈ keyfobAllowedDays keyfob →
      keyfob.activation_start_time = some start →
      keyfob.activation_end_time = some stop → stop < start →
      (check_schedule keyfob wd t = true ↔ (t ≥ start ∨ t < stop))) := by
  have hne : wd ≠ "" := weekdayNames_ne_empty wd hwd
  refine ⟨?_, ?_, ?_, ?_, ?_⟩
  · intro hdis
    rw [check_schedule, if_pos hdis]
  · intro hen hmem
    rw [check_schedule, if_neg (by rw [hen]; simp)]
    by_cases hf : pyStrFalsy keyfob.activation_days
    · rw [if_pos hf]
    · rw [if_neg hf, if_neg hmem]
  · intro hen hmem hnone
    have hf := pyStrFalsy_eq_false_of_mem_allowed keyfob wd hne hmem
    rw [check_schedule, if_neg (by rw [hen]; simp), if_neg (by rw [hf]; simp),
      if_pos hmem]
    rcases hnone with hs | hs
    · rw [hs]
    · rw [hs]
      cases hstart : keyfob.activation_start_time <;> rfl
  · intro start stop hen hmem hstart hstop hle
    have hf := pyStrFalsy_eq_false_of_mem_allowed keyfob wd hne hmem
    rw [check_schedule, if_neg (by rw [hen]; simp), if_neg (by rw [hf]; simp),
      if_pos hmem, hstart, hstop]
    change (if start ≤ stop then decide (start ≤ t ∧ t < stop)
      else decide (t ≥ start ∨ t < stop)) = true ↔ _
    rw [if_pos hle]
    exact decide_eq_true_iff
  · intro start stop hen hmem hstart hstop hlt
    have hf := pyStrFalsy_eq_false_of_mem_allowed keyfob wd hne hmem
    rw [check_schedule, if_neg (by rw [hen]; simp), if_neg (by rw [hf]; simp),
      if_pos hmem, hstart, hstop]
    change (if start ≤ stop then decide (start ≤ t ∧ t < stop)
      else decide (t ≥ start ∨ t < stop)) = true ↔ _
    rw [if_neg (by omega)]
    exact decide_eq_true_iff

/-- Witness for C4: the spec's wrapping schedule 22:00 → 06:00 grants at
23:30 and denies at 12:00 (times in minutes since midnight). -/
theorem check_schedule_cases_witness :
    check_schedule keyfobWrapExample "tue" 1410 = true ∧
    check_schedule keyfobWrapExample "tue" 720 = false := by
  have h := check_schedule_cases keyfobWrapExample "tue" 1410 (by decide)
  refine ⟨(h.2.2.2.2 1320 360 rfl (by decide) rfl rfl (by decide)).mpr
    (by decide), by decide⟩

/-! ## C10: get_opening_time always yields a duration in [1, 60] -/

theorem get_opening_time_bounds (st : SettingsState) :
    1 ≤ get_opening_time st ∧ get_opening_time st ≤ 60 := by
  rw [get_opening_time]
  cases h : pyInt? (settingsGetOpeningTime st) with
  | none =>
    show (1 : Int) ≤ DEFAULT_OPENING_TIME_SECONDS ∧
      DEFAULT_OPENING_TIME_SECONDS ≤ 60
    decide
  | some n =>
    constructor
    · show (1 : Int) ≤ max 1 (min 60 n)
      omega
    · show max 1 (min 60 n) ≤ (60 : Int)
      omega

/-- The narrow settings model is the restriction of the full one: on states
without floats or raising paths, `get_opening_time_full` returns exactly
`get_opening_time`. -/
theorem get_opening_time_full_agrees (st : SettingsState) :
    get_opening_time_full st.toFile = Except.ok (get_opening_time st) := by
  cases st with
  | unreadable => rfl
  | missingKey => rfl
  | stored v =>
    cases v with
    | vint n => rfl
    | vbool b => rfl
    | vnull => rfl
    | vstr s =>
      cases hps : pyIntOfString s <;>
        simp [SettingsState.toFile, SettingsVal.toJson, get_opening_time_full,
          settingsOpeningTimeFull, pyIntOfJson, get_opening_time, pyInt?,
          settingsGetOpeningTime, hps]

/-- C10 counterexample: `get_opening_time` does **not** return an integer in
[1, 60] for every content of the settings file.  A stored `Infinity` (which
Python's json parser accepts) makes `int()` raise an uncaught
`OverflowError`; a valid non-dict JSON top level makes `load_json_config`'s
`setdefault` raise an uncaught `AttributeError`; and a stored finite float
`2.5` is truncated to 2 — a non-integer value that is neither returned
as-is, nor clamped to a bound, nor replaced by the 5-second default. -/
theorem get_opening_time_raises_counterexample :
    get_opening_time_full (SettingsFile.stored (JsonVal.jfloat PyFloat.inf)) =
      Except.error PyExn.overflowError ∧
    get_opening_time_full SettingsFile.notADict =
      Except.error PyExn.attributeError ∧
    get_opening_time_full (SettingsFile.stored (JsonVal.jfloat
      (PyFloat.finite (5 / 2)))) = Except.ok 2 ∧
    (¬ ∃ n : Int, (5 / 2 : ℚ) = (n : ℚ)) ∧
    (2 : Int) ≠ DEFAULT_OPENING_TIME_SECONDS := by
  refine ⟨rfl, rfl, ?_, ?_, by decide⟩
  · have hneg : ¬ ((5 / 2 : ℚ) < 0) := by norm_num
    have hfloor : ⌊(5 / 2 : ℚ)⌋ = 2 := by norm_num
    show Except.ok (max 1 (min 60 (if (5 / 2 : ℚ) < 0 then ⌈(5 / 2 : ℚ)⌉
      else ⌊(5 / 2 : ℚ)⌋))) = Except.ok 2
    rw [if_neg hneg, hfloor]
    have hclamp : max (1 : Int) (min 60 2) = 2 := by norm_num
    rw [hclamp]
  · rintro ⟨n, hn⟩
    rw [div_eq_iff (by norm_num : (2 : ℚ) ≠ 0)] at hn
    have hcast : (5 : Int) = n * 2 := by exact_mod_cast hn
    omega

/-- Unfolding of `get_opening_time_full` when the load yields an error. -/
theorem get_opening_time_full_error_eq (st : SettingsFile) (e : PyExn)
    (hv : settingsOpeningTimeFull st = Except.error e) :
    get_opening_time_full st = Except.error e := by
  rw [get_opening_time_full, hv]

/-- Unfolding of `get_opening_time_full` when the stored value converts. -/
theorem get_opening_time_full_ok_val (st : SettingsFile) (v : JsonVal)
    (m : Int) (hv : settingsOpeningTimeFull st = Except.ok v)
    (hi : pyIntOfJson v = PyIntOutcome.ok m) :
    get_opening_time_full st = Except.ok (max 1 (min 60 m)) := by
  rw [get_opening_time_full, hv]
  show (match pyIntOfJson v with
    | PyIntOutcome.ok time_val => Except.ok (max 1 (min 60 time_val))
    | PyIntOutcome.caught => Except.ok DEFAULT_OPENING_TIME_SECONDS
    | PyIntOutcome.overflow => Except.error PyExn.overflowError) =
    Except.ok (max 1 (min 60 m))
  rw [hi]

/-- Unfolding of `get_opening_time_full` when the conversion raises a caught
`ValueError`/`TypeError`. -/
theorem get_opening_time_full_caught_eq (st : SettingsFile) (v : JsonVal)
    (hv : settingsOpeningTimeFull st = Except.ok v)
    (hi : pyIntOfJson v = PyIntOutcome.caught) :
    get_opening_time_full st = Except.ok DEFAULT_OPENING_TIME_SECONDS := by
  rw [get_opening_time_full, hv]
  show (match pyIntOfJson v with
    | PyIntOutcome.ok time_val => Except.ok (max 1 (min 60 time_val))
    | PyIntOutcome.caught => Except.ok DEFAULT_OPENING_TIME_SECONDS
    | PyIntOutcome.overflow => Except.error PyExn.overflowError) =
    Except.ok DEFAULT_OPENING_TIME_SECONDS
  rw [hi]

/-- Unfolding of `get_opening_time_full` when the conversion raises
`OverflowError`. -/
theorem get_opening_time_full_overflow_eq (st : SettingsFile) (v : JsonVal)
    (hv : settingsOpeningTimeFull st = Except.ok v)
    (hi : pyIntOfJson v = PyIntOutcome.overflow) :
    get_opening_time_full st = Except.error PyExn.overflowError := by
  rw [get_opening_time_full, hv]
  show (match pyIntOfJson v with
    | PyIntOutcome.ok time_val => Except.ok (max 1 (min 60 time_val))
    | PyIntOutcome.caught => Except.ok DEFAULT_OPENING_TIME_SECONDS
    | PyIntOutcome.overflow => Except.error PyExn.overflowError) =
    Except.error PyExn.overflowError
  rw [hi]

/-- C10 (amended).  On every settings content on which `get_opening_time`
returns at all, the result is an integer in [1, 60]: a convertible value
(int, bool, finite float truncated toward zero, or integer-literal string)
is clamped via `max 1 (min 60 v)`; a value whose conversion raises
`ValueError`/`TypeError` (NaN, other strings, null, containers) falls back
to the 5-second default, as do a missing file, an unreadable/invalid-JSON
file and a missing key.  The call raises — returns nothing — exactly when
the file holds valid non-dict JSON (`AttributeError`) or the stored value is
`±Infinity` (`OverflowError`); on every returning state the door actuator's
configured-default path uses exactly the returned duration. -/
theorem get_opening_time_full_in_range (st : SettingsFile) :
    (∀ n : Int, get_opening_time_full st = Except.ok n → 1 ≤ n ∧ n ≤ 60) ∧
    (∀ v : JsonVal, ∀ m : Int, settingsOpeningTimeFull st = Except.ok v →
      pyIntOfJson v = PyIntOutcome.ok m →
      get_opening_time_full st = Except.ok (max 1 (min 60 m))) ∧
    (∀ v : JsonVal, settingsOpeningTimeFull st = Except.ok v →
      pyIntOfJson v = PyIntOutcome.caught →
      get_opening_time_full st = Except.ok DEFAULT_OPENING_TIME_SECONDS) ∧
    (st = SettingsFile.missingFile ∨ st = SettingsFile.unreadable ∨
      st = SettingsFile.missingKey →
      get_opening_time_full st = Except.ok DEFAULT_OPENING_TIME_SECONDS) ∧
    ((∃ e, get_opening_time_full st = Except.error e) ↔
      (st = SettingsFile.notADict ∨
        st = SettingsFile.stored (JsonVal.jfloat PyFloat.inf) ∨
        st = SettingsFile.stored (JsonVal.jfloat PyFloat.negInf))) ∧
    (∀ n : Int, ∀ o : RelayOracle, get_opening_time_full st = Except.ok n →
      (activate_relay true o none n).usedTime = some n) := by
  refine ⟨?_, ?_, ?_, ?_, ?_, ?_⟩
  · intro n h
    rcases hv : settingsOpeningTimeFull st with e | v
    · rw [get_opening_time_full_error_eq st e hv] at h
      cases h
    · rcases hi : pyIntOfJson v with m | _ | _
      · rw [get_opening_time_full_ok_val st v m hv hi] at h
        obtain rfl := (Except.ok.inj h).symm
        omega
      · rw [get_opening_time_full_caught_eq st v hv hi] at h
        obtain rfl := (Except.ok.inj h).symm
        decide
      · rw [get_opening_time_full_overflow_eq st v hv hi] at h
        cases h
  · intro v m hv hi
    exact get_opening_time_full_ok_val st v m hv hi
  · intro v hv hi
    exact get_opening_time_full_caught_eq st v hv hi
  · intro h
    rcases h with rfl | rfl | rfl <;> rfl
  · constructor
    · rintro ⟨e, he⟩
      cases st with
      | missingFile => cases he
      | unreadable => cases he
      | missingKey => cases he
      | notADict => exact Or.inl rfl
      | stored v =>
        cases v with
        | jint n => cases he
        | jbool b => cases he
        | jnull => cases he
        | jcontainer => cases he
        | jstr s =>
          rcases hps : pyIntOfString s with _ | n
          · have hi : pyIntOfJson (JsonVal.jstr s) = PyIntOutcome.caught := by
              rw [pyIntOfJson, hps]
            rw [get_opening_time_full_caught_eq
              (SettingsFile.stored (JsonVal.jstr s)) (JsonVal.jstr s) rfl hi]
              at he
            cases he
          · have hi : pyIntOfJson (JsonVal.jstr s) = PyIntOutcome.ok n := by
              rw [pyIntOfJson, hps]
            rw [get_opening_time_full_ok_val
              (SettingsFile.stored (JsonVal.jstr s)) (JsonVal.jstr s) n rfl hi]
              at he
            cases he
        | jfloat f =>
          cases f with
          | finite q => cases he
          | nan => cases he
          | inf => exact Or.inr (Or.inl rfl)
          | negInf => exact Or.inr (Or.inr rfl)
    · rintro (rfl | rfl | rfl)
      · exact ⟨PyExn.attributeError, rfl⟩
      · exact ⟨PyExn.overflowError, rfl⟩
      · exact ⟨PyExn.overflowError, rfl⟩
  · intro n o h
    rcases o with ⟨c, w0, w1, wr⟩
    cases c <;> cases w0 <;> cases w1 <;> rfl

/-! ## C5: clamping of the opening duration (corrected) -/

/-- C5 counterexample: an explicitly passed duration is **not** clamped.
With hardware available and every pigpio operation succeeding,
`activate_relay(100)` holds the relay unlocked for 100 seconds, outside
[1, 60]. -/
theorem activate_relay_no_clamp_counterexample :
    (activate_relay true ⟨true, true, true, true⟩ (some 100)
      DEFAULT_OPENING_TIME_SECONDS).slept = some 100 ∧
    ¬ ((100 : Int) ≤ 60) := by
  constructor
  · rfl
  · decide

/-- C5 (amended).  Only the configured-default path is clamped: when no
explicit duration is passed, the duration used is `get_opening_time()`,
which always lies in [1, 60] (so any actual unlock sleep on that path is in
[1, 60]); a duration explicitly passed by the caller is used as-is, without
clamping. -/
theorem activate_relay_duration_clamping (st : SettingsState) (o : RelayOracle)
    (d : Int) (other_time : Int) :
    (activate_relay true o none (get_opening_time st)).usedTime =
      some (get_opening_time st) ∧
    1 ≤ get_opening_time st ∧ get_opening_time st ≤ 60 ∧
    (∀ t : Int, (activate_relay true o none (get_opening_time st)).slept =
      some t → 1 ≤ t ∧ t ≤ 60) ∧
    (activate_relay true o (some d) other_time).usedTime = some d := by
  obtain ⟨hlo, hhi⟩ := get_opening_time_bounds st
  rcases o with ⟨c, w0, w1, wr⟩
  refine ⟨?_, hlo, hhi, ?_, ?_⟩
  · cases c <;> cases w0 <;> cases w1 <;> rfl
  · intro t ht
    have heq : t = get_opening_time st := by
      cases c <;> cases w0 <;> cases w1 <;>
        first
        | exact Option.noConfusion ht
        | exact (Option.some.inj ht).symm
    subst heq
    exact ⟨hlo, hhi⟩
  · cases c <;> cases w0 <;> cases w1 <;> rfl

/-! ## C8: the relay ends (or is re-asserted) locked -/

/-- C8.  With hardware unavailable the call fails at once without touching
the relay.  With hardware available: on success the write sequence is
exactly unlock-then-relock (both succeeding) after sleeping the activation
time, and in every outcome the last attempted write targets the locked
level — i.e. any failure after the unlock write triggers a best-effort
re-assertion of the locked output before the call returns. -/
theorem activate_relay_fail_safe (o : RelayOracle) (duration : Option Int)
    (opening_time : Int) :
    ((activate_relay false o duration opening_time).ok = false ∧
      (activate_relay false o duration opening_time).writes = []) ∧
    ((activate_relay true o duration opening_time).ok = true →
      (activate_relay true o duration opening_time).writes =
        [⟨0, true⟩, ⟨1, true⟩] ∧
      (activate_relay true o duration opening_time).slept =
        some (duration.getD opening_time)) ∧
    lastWriteIsLockLevel (activate_relay true o duration opening_time).writes =
      true ∧
    lastWriteIsLockLevel (activate_relay false o duration opening_time).writes =
      true := by
  rcases o with ⟨c, w0, w1, wr⟩
  refine ⟨⟨rfl, rfl⟩, ?_, ?_, rfl⟩
  · intro hok
    cases c <;> cases w0 <;> cases w1 <;>
      first
      | exact ⟨rfl, rfl⟩
      | exact (Bool.false_ne_true hok).elim
  · cases c <;> cases w0 <;> cases w1 <;> cases wr <;> rfl

/-! ## C6: the credential queue is unbounded (corrected) -/

/-- C6 counterexample: the credential queue is created with
`queue.Queue()` — `maxsize = 0`, i.e. infinite — so there is no capacity at
which an enqueue is rejected: even holding 4096 items it accepts another
(`put` succeeds and the size grows), contradicting the claimed bound. -/
theorem wiegand_queue_unbounded_counterexample :
    wiegand_queue_init.maxsize = 0 ∧
    (pyQueuePutNowait ⟨wiegand_queue_init.maxsize, List.replicate 4096 "0"⟩
      "16777215").2 = true ∧
    (pyQueuePutNowait ⟨wiegand_queue_init.maxsize, List.replicate 4096 "0"⟩
      "16777215").1.items.length = 4097 := by
  refine ⟨rfl, rfl, ?_⟩
  show (List.replicate 4096 "0" ++ ["16777215"]).length = 4097
  rw [List.length_append, List.length_replicate, List.length_singleton]

/-- C6 (amended).  The credential queue is created unbounded
(`queue.Queue()` with the default `maxsize = 0`), so its non-blocking
enqueue never rejects: every `put` succeeds and appends the item, while
dequeue still returns the oldest item first (FIFO); the reader thread's
`queue.Full` drop-and-log handler is unreachable. -/
theorem wiegand_queue_enqueue_never_rejected (items : List String)
    (x : String) :
    (pyQueuePutNowait ⟨wiegand_queue_init.maxsize, items⟩ x).2 = true ∧
    (pyQueuePutNowait ⟨wiegand_queue_init.maxsize, items⟩ x).1.items =
      items ++ [x] ∧
    (pyQueueGetNowait ⟨wiegand_queue_init.maxsize, items⟩).map Prod.fst =
      items.head? := by
  have hfull : (⟨wiegand_queue_init.maxsize, items⟩ : PyQueue).isFull = false := by
    simp [PyQueue.isFull, wiegand_queue_init]
  refine ⟨?_, ?_, ?_⟩
  · rw [pyQueuePutNowait, hfull]
    rfl
  · rw [pyQueuePutNowait, hfull]
    rfl
  · cases items <;> rfl

/-! ## C7: a DB operational error loses the dequeued item -/

/-- C7.  The tick dequeues with `get_nowait()` *before* processing, so when
the lookup raises `OperationalError` the batch stops but the failed item has
already been removed from the queue: after the tick the queue is empty and
the UID cannot be processed again on the next tick, despite the skipped
`task_done()`. -/
theorem wiegand_db_error_item_dropped :
    process_wiegand_queue_task (fun _ => DbLookup.opError) "mon" 720
      ["8454143"] = ([], [TickEvent.dbOperationalError "8454143"]) ∧
    "8454143" ∉ (process_wiegand_queue_task (fun _ => DbLookup.opError) "mon"
      720 ["8454143"]).1 := by
  have h : process_wiegand_queue_task (fun _ => DbLookup.opError) "mon" 720
      ["8454143"] = ([], [TickEvent.dbOperationalError "8454143"]) := rfl
  refine ⟨h, ?_⟩
  rw [h]
  simp
